import Mathlib

/-!
Verification of the outline rendering pipeline of react-scan.

The development shallowly embeds the pipeline source:

* the outline aggregator (`outlineFiber`, `flushOutlines`) and the batched
  visibility resolver (`getBatchedRectMap`) from the core module;
* the rectangle merger (`mergeRects`);
* the two renderer backends (`CanvasOutlineRenderer`, `WorkerOutlineRenderer`)
  from outline-renderer.ts;
* the debounced scroll forwarding installed by `getCanvasEl`.

JavaScript Map and Set objects are modelled as insertion-ordered association
lists and duplicate-free lists; numeric values are modelled as rationals
(the source only ever compares, adds and subtracts them); fiber and DOM node
object identities are modelled as natural numbers.  Asynchronous pieces
(the IntersectionObserver callback and the async generator driving it) are
modelled as explicit state machines processing the list of notification
bursts delivered by the environment; a suspension that can never be resumed
is modelled as the absence (`none`) of a final state.
-/

namespace ReactScan

/-- Insertion-ordered association list model of a JavaScript `Map`.
`mapGet m k` is `m.get(k)`. -/
def mapGet {α β : Type} [DecidableEq α] (m : List (α × β)) (k : α) : Option β :=
  match m with
  | [] => none
  | (k2, v) :: rest => if k2 = k then some v else mapGet rest k

/-- `mapSet m k v` is `m.set(k, v)`: overwrites the entry in place if the key
is present, otherwise appends a new entry (JavaScript Map insertion order). -/
def mapSet {α β : Type} [DecidableEq α] (m : List (α × β)) (k : α) (v : β) :
    List (α × β) :=
  match m with
  | [] => [(k, v)]
  | (k2, v2) :: rest =>
    if k2 = k then (k, v) :: rest else (k2, v2) :: mapSet rest k v

/-- `mapDelete m k` is `m.delete(k)` on a `Map` (keys are unique in a Map,
so removing the first matching entry is exact). -/
def mapDelete {α β : Type} [DecidableEq α] (m : List (α × β)) (k : α) :
    List (α × β) :=
  match m with
  | [] => []
  | (k2, v2) :: rest => if k2 = k then rest else (k2, v2) :: mapDelete rest k

/-- Insertion-ordered model of `Set.add`. -/
def setAdd {α : Type} [DecidableEq α] (xs : List α) (x : α) : List α :=
  if x ∈ xs then xs else xs ++ [x]

/-- A DOM-ish node reference (`stateNode` of a host fiber).  `isElem` records
whether the node passes the `instanceof Element` check in `flushOutlines`;
`nid` is the object identity. -/
structure NodeRef where
  nid : ℕ
  isElem : Bool
deriving DecidableEq

/-- An axis-aligned rectangle, the shape of a `DOMRect`. -/
structure Rect where
  x : ℚ
  y : ℚ
  width : ℚ
  height : ℚ
deriving DecidableEq

/-- The observable part of a `Fiber` used by `outlineFiber`:
`fid` is the object identity (also what `getFiberId` returns),
`isComposite` is `isCompositeFiber(fiber)`,
`displayName` is the computed `name` (`none` when it is falsy),
`hostNodes` is `getNearestHostFibers(fiber).map((f) => f.stateNode)`,
`committed` is `didFiberCommit(fiber)`. -/
structure Fiber where
  fid : ℕ
  isComposite : Bool
  displayName : Option String
  hostNodes : List NodeRef
  committed : Bool
deriving DecidableEq

/-- `BlueprintOutline` from types.ts. -/
structure BlueprintOutline where
  name : String
  count : ℕ
  elements : List NodeRef
  didCommit : ℕ
deriving DecidableEq

/-- The aggregator state: the module-level `blueprintMap` and
`blueprintMapKeys` of the core module. -/
structure AggState where
  blueprintMap : List (ℕ × BlueprintOutline)
  blueprintMapKeys : List ℕ
deriving DecidableEq

/-- `outlineFiber(fiber)`: upserts a blueprint for the fiber.  A new identity
is inserted with `count = 1` and the current commit flag; an existing
blueprint only has its `count` incremented (`blueprint.count++`). -/
def outlineFiber (s : AggState) (fiber : Fiber) : AggState :=
  if fiber.isComposite = false then s
  else
    match fiber.displayName with
    | none => s
    | some name =>
      let didCommit : ℕ := if fiber.committed then 1 else 0
      match mapGet s.blueprintMap fiber.fid with
      | none =>
        { blueprintMap := mapSet s.blueprintMap fiber.fid
            ({ name := name, count := 1, elements := fiber.hostNodes,
               didCommit := didCommit }),
          blueprintMapKeys := setAdd s.blueprintMapKeys fiber.fid }
      | some blueprint =>
        let bumped := { blueprint with count := blueprint.count + 1 }
        { s with blueprintMap := mapSet s.blueprintMap fiber.fid bumped }

/-- Accumulator of the min/max loop in `mergeRects`; `none` models the
`undefined` initial value of each bound. -/
structure MergeAcc where
  minX : Option ℚ
  minY : Option ℚ
  maxX : Option ℚ
  maxY : Option ℚ
deriving DecidableEq

/-- One iteration of the `for` loop of `mergeRects`. -/
def mergeStep (acc : MergeAcc) (rect : Rect) : MergeAcc where
  minX := some (match acc.minX with
    | none => rect.x
    | some m => min m rect.x)
  minY := some (match acc.minY with
    | none => rect.y
    | some m => min m rect.y)
  maxX := some (match acc.maxX with
    | none => rect.x + rect.width
    | some m => max m (rect.x + rect.width))
  maxY := some (match acc.maxY with
    | none => rect.y + rect.height
    | some m => max m (rect.y + rect.height))

/-- `mergeRects(rects)`.  A single rectangle is returned unchanged; otherwise
the loop folds min/max bounds over all rectangles and a bounding rectangle is
built.  The final catch-all branch is the defensive `minX == null || ...`
fallback of the source; an empty input yields `none` (`rects[0]` is
`undefined` in the source there). -/
def mergeRects (rects : List Rect) : Option Rect :=
  match rects with
  | [] => none
  | [firstRect] => some firstRect
  | firstRect :: rest =>
    match (firstRect :: rest).foldl mergeStep ⟨none, none, none, none⟩ with
    | ⟨some minX, some minY, some maxX, some maxY⟩ =>
      some { x := minX, y := minY, width := maxX - minX, height := maxY - minY }
    | _ => some firstRect

/-- `OutlineData` from types.ts: the finalized outline record crossing the
aggregator to renderer boundary. -/
structure OutlineData where
  id : ℕ
  name : String
  count : ℕ
  x : ℚ
  y : ℚ
  width : ℚ
  height : ℚ
  didCommit : ℕ
deriving DecidableEq

/-- `ActiveOutline` from types.ts: one per distinct id currently animating. -/
structure ActiveOutline where
  id : ℕ
  name : String
  count : ℕ
  x : ℚ
  y : ℚ
  width : ℚ
  height : ℚ
  frame : ℕ
  targetX : ℚ
  targetY : ℚ
  targetWidth : ℚ
  targetHeight : ℚ
  didCommit : ℕ
deriving DecidableEq

namespace CanvasOutlineRenderer

/-- Observable state of a `CanvasOutlineRenderer`: its `activeOutlines` map
(keyed by `String(outline.id)`) and whether an animation frame is scheduled
(`animationFrameId`). -/
structure State where
  activeOutlines : List (String × ActiveOutline)
  animationFrameId : Option ℕ
deriving DecidableEq

/-- The fresh `ActiveOutline` object literal built at the top of the loop of
`updateOutlines`: current position starts at the target position and
`frame = 0`. -/
def toActiveOutline (o : OutlineData) : ActiveOutline where
  id := o.id
  name := o.name
  count := o.count
  x := o.x
  y := o.y
  width := o.width
  height := o.height
  frame := 0
  targetX := o.x
  targetY := o.y
  targetWidth := o.width
  targetHeight := o.height
  didCommit := o.didCommit

/-- One iteration of the loop of `CanvasOutlineRenderer.updateOutlines`:
merge a single incoming record into the `activeOutlines` map. -/
def updateOutline (m : List (String × ActiveOutline)) (o : OutlineData) :
    List (String × ActiveOutline) :=
  let outline := toActiveOutline o
  let key := toString outline.id
  match mapGet m key with
  | some existingOutline =>
    mapSet m key
      { existingOutline with
        count := existingOutline.count + 1
        frame := 0
        targetX := o.x
        targetY := o.y
        targetWidth := o.width
        targetHeight := o.height
        didCommit := o.didCommit }
  | none => mapSet m key outline

/-- `CanvasOutlineRenderer.updateOutlines(outlines)`. -/
def updateOutlines (m : List (String × ActiveOutline))
    (outlines : List OutlineData) : List (String × ActiveOutline) :=
  outlines.foldl updateOutline m

/-- `CanvasOutlineRenderer.renderOutlines(outlines)`: merge the records, then
schedule a draw frame if none is pending. -/
def renderOutlines (s : State) (outlines : List OutlineData) : State where
  activeOutlines := updateOutlines s.activeOutlines outlines
  animationFrameId :=
    match s.animationFrameId with
    | none => some 1
    | some fid => some fid

/-- `CanvasOutlineRenderer.dispose()`: the method body is empty, so the
renderer state is returned untouched. -/
def dispose (s : State) : State := s

end CanvasOutlineRenderer

/-- `OUTLINE_ARRAY_SIZE` from outline-renderer.ts. -/
def OUTLINE_ARRAY_SIZE : ℕ := 7

/-- The seven `Float32Array` slots written for one outline record by
`WorkerOutlineRenderer.renderOutlines`, in index order. -/
def packOutlineData (o : OutlineData) : List ℚ :=
  [(o.id : ℚ), (o.count : ℚ), o.x, o.y, o.width, o.height, (o.didCommit : ℚ)]

/-- The `draw-outlines` message posted to the worker: the backing buffer byte
length, the `Float32Array` slot contents in index order, and the index-aligned
name list. -/
structure DrawOutlinesMessage where
  byteLength : ℕ
  data : List ℚ
  names : List String
deriving DecidableEq

namespace WorkerOutlineRenderer

/-- `WorkerOutlineRenderer.renderOutlines(outlines)`: allocates a buffer of
`outlines.length * OUTLINE_ARRAY_SIZE * 4` bytes, writes the seven slots of
record `i` at slot offset `7 * i`, fills the parallel name array, and posts
the `draw-outlines` message. -/
def renderOutlines (outlines : List OutlineData) : DrawOutlinesMessage where
  byteLength := outlines.length * OUTLINE_ARRAY_SIZE * 4
  data := (outlines.map packOutlineData).flatten
  names := outlines.map OutlineData.name

/-- `WorkerOutlineRenderer` state: whether the background worker has been
terminated. -/
structure State where
  terminated : Bool
deriving DecidableEq

/-- `WorkerOutlineRenderer.dispose()`: `this.worker.terminate()`.  Terminating
an already terminated worker is a no-op. -/
def dispose (_s : State) : State where
  terminated := true

end WorkerOutlineRenderer

/-- An `IntersectionObserverEntry` as consumed by the pipeline. -/
structure ObserverEntry where
  target : NodeRef
  isIntersecting : Bool
  intersectionRect : Rect
deriving DecidableEq

/-- State of one `getBatchedRectMap` invocation: the de-duplicated input set,
the seen set, whether the consumer holds a pending `resolveNext` callback
(`waiting`), and the `done` flag. -/
structure ResolverState where
  uniqueElements : List NodeRef
  seenElements : List NodeRef
  waiting : Bool
  done : Bool
deriving DecidableEq

/-- The partition loop at the top of the IntersectionObserver callback:
walks the delivered entries in order, pushing each entry whose target is not
yet seen onto `newEntries` and adding its target to the seen set. -/
def partitionNew (seen : List NodeRef) :
    List ObserverEntry → List ObserverEntry × List NodeRef
  | [] => ([], seen)
  | entry :: rest =>
    if entry.target ∈ seen then partitionNew seen rest
    else
      let r := partitionNew (seen ++ [entry.target]) rest
      (entry :: r.1, r.2)

/-- The IntersectionObserver callback of `getBatchedRectMap`, as a state
transition.  Returns the new state and the value handed to a resolved
`resolveNext` promise, if any: `some batch` when the newly seen entries are
delivered to a waiting consumer, `some []` for the final empty resolution
fired when the seen set fills while a consumer is still waiting, `none` when
nothing is resolved. -/
def observerCallback (s : ResolverState) (entries : List ObserverEntry) :
    ResolverState × Option (List ObserverEntry) :=
  let p := partitionNew s.seenElements entries
  let newEntries := p.1
  let seen := p.2
  let resolved : Bool := (decide (newEntries ≠ [])) && s.waiting
  let waiting1 : Bool := if resolved then false else s.waiting
  let delivered1 : Option (List ObserverEntry) :=
    if resolved then some newEntries else none
  if seen.length = s.uniqueElements.length then
    ({ s with seenElements := seen, waiting := waiting1, done := true },
      if waiting1 then some [] else delivered1)
  else
    ({ s with seenElements := seen, waiting := waiting1 }, delivered1)

/-- Insertion-ordered de-duplication, the effect of `new Set(elements)`. -/
def dedupList (l : List NodeRef) : List NodeRef :=
  l.foldl (fun acc e => setAdd acc e) []

/-- Drives one `getBatchedRectMap` invocation over the list of notification
bursts delivered by the environment, in the consuming regime of the source:
the generator body re-arms `resolveNext` (sets `waiting`) before each burst
can be delivered, and the yielded batch is claimed synchronously.  Returns
the yielded batches in order and the final resolver state.  Bursts arriving
after the observer disconnected (`done`) cannot occur and are ignored. -/
def runResolver (s : ResolverState) :
    List (List ObserverEntry) → List (List ObserverEntry) × ResolverState
  | [] => ([], s)
  | b :: bs =>
    if s.done then ([], s)
    else
      let r := observerCallback { s with waiting := true } b
      let rest := runResolver r.1 bs
      (match r.2 with
       | some es => if es.isEmpty then rest.1 else es :: rest.1
       | none => rest.1,
       rest.2)

/-- `getBatchedRectMap(elements)` consumed to the end of the given burst
list: observes the de-duplicated element set and produces the yielded
batches together with the final resolver state.  The generator has
terminated exactly when the final state has `done = true`; otherwise its
`while (!done)` loop is still suspended on a promise nobody will resolve. -/
def getBatchedRectMap (elements : List NodeRef)
    (bursts : List (List ObserverEntry)) :
    List (List ObserverEntry) × ResolverState :=
  runResolver
    { uniqueElements := dedupList elements, seenElements := [],
      waiting := false, done := false } bursts

/-- The element collection loop at the top of `flushOutlines`: every
`instanceof Element` node of every current blueprint, in key order. -/
def collectElements (s : AggState) : List NodeRef :=
  (s.blueprintMapKeys.map (fun fid =>
    match mapGet s.blueprintMap fid with
    | none => []
    | some blueprint => blueprint.elements.filter (fun el => el.isElem))).flatten

/-- The `rectsMap` update at the top of the `for await` body of
`flushOutlines`: entries that are intersecting with a rectangle of nonzero
width and height are recorded. -/
def updateRectsMap (rectsMap : List (NodeRef × Rect))
    (entries : List ObserverEntry) : List (NodeRef × Rect) :=
  entries.foldl (fun m entry =>
    if entry.isIntersecting = true ∧ entry.intersectionRect.width ≠ 0 ∧
        entry.intersectionRect.height ≠ 0 then
      mapSet m entry.target entry.intersectionRect
    else m) rectsMap

/-- The blueprint scan of one `for await` iteration of `flushOutlines`:
for each blueprint (in key order) that has at least one resolved rectangle,
emit the finalized outline built from the merged rectangle.  The `getD`
default is unreachable because `mergeRects` is `some` on nonempty input. -/
def buildOutlineBatch (s : AggState) (rectsMap : List (NodeRef × Rect)) :
    List OutlineData :=
  (s.blueprintMapKeys.map (fun fid =>
    match mapGet s.blueprintMap fid with
    | none => []
    | some blueprint =>
      let rects := blueprint.elements.filterMap (fun el => mapGet rectsMap el)
      if rects.isEmpty then []
      else
        let merged := (mergeRects rects).getD { x := 0, y := 0, width := 0, height := 0 }
        [{ id := fid, name := blueprint.name, count := blueprint.count,
           x := merged.x, y := merged.y, width := merged.width,
           height := merged.height, didCommit := blueprint.didCommit }])).flatten

/-- The `for await` body of `flushOutlines` over the yielded batches:
accumulates `rectsMap` and records one `renderOutlines` call per iteration
whose outline batch is nonempty. -/
def flushLoop (s : AggState) (rectsMap : List (NodeRef × Rect)) :
    List (List ObserverEntry) → List (List OutlineData)
  | [] => []
  | batch :: rest =>
    let rm := updateRectsMap rectsMap batch
    let outlines := buildOutlineBatch s rm
    let renders := flushLoop s rm rest
    if outlines.isEmpty then renders else outlines :: renders

/-- The unconditional clearing loop at the end of `flushOutlines`. -/
def clearBlueprints (s : AggState) : AggState where
  blueprintMap := s.blueprintMapKeys.foldl (fun m k => mapDelete m k) s.blueprintMap
  blueprintMapKeys := []

/-- `flushOutlines()` given the notification bursts delivered by the
environment: collects the valid elements, consumes `getBatchedRectMap`,
emits the render calls, and — only if the resolver signalled `done`, i.e.
the `for await` loop actually finished — clears the blueprints and returns
the final aggregator state.  `none` in the second component means the flush
is suspended forever inside the resolver and never reaches the clearing
loop. -/
def flushOutlines (s : AggState) (bursts : List (List ObserverEntry)) :
    List (List OutlineData) × Option AggState :=
  let elements := collectElements s
  let r := getBatchedRectMap elements bursts
  let renders := flushLoop s [] r.1
  if r.2.done then (renders, some (clearBlueprints s))
  else (renders, none)

/-- State of the debounced scroll forwarding installed by `getCanvasEl`:
the previous scroll position, the `isScrollScheduled` flag, and the deltas
captured by the closure passed to `setTimeout` when the forwarding was
scheduled. -/
structure ScrollForwardState where
  prevScrollX : ℤ
  prevScrollY : ℤ
  isScrollScheduled : Bool
  pendingDeltaX : ℤ
  pendingDeltaY : ℤ
deriving DecidableEq

/-- Events of the scroll forwarding machine: a scroll event moving the
window to an absolute position, and the firing of the scheduled timeout. -/
inductive ScrollEvent where
  | scrollTo (x y : ℤ)
  | timeoutFire
deriving DecidableEq

/-- One event of the scroll listener of `getCanvasEl`.  A scroll event
computes deltas against the previous position and updates it; only when no
forwarding is scheduled does it schedule one, capturing the current deltas
in the timeout closure.  The timeout fire delivers exactly the captured
deltas to `outlineRenderer.scroll` and clears the flag. -/
def scrollStep (s : ScrollForwardState) :
    ScrollEvent → ScrollForwardState × Option (ℤ × ℤ)
  | ScrollEvent.scrollTo x y =>
    let deltaX := x - s.prevScrollX
    let deltaY := y - s.prevScrollY
    let s1 := { s with prevScrollX := x, prevScrollY := y }
    if s.isScrollScheduled then (s1, none)
    else
      ({ s1 with
          isScrollScheduled := true
          pendingDeltaX := deltaX
          pendingDeltaY := deltaY }, none)
  | ScrollEvent.timeoutFire =>
    if s.isScrollScheduled then
      ({ s with isScrollScheduled := false },
       some (s.pendingDeltaX, s.pendingDeltaY))
    else (s, none)

/-- Runs the scroll forwarding machine over an event trace and collects the
`scroll(deltaX, deltaY)` calls delivered to the renderer, in order. -/
def runScroll (s : ScrollForwardState) : List ScrollEvent → List (ℤ × ℤ)
  | [] => []
  | e :: rest =>
    let r := scrollStep s e
    match r.2 with
    | some d => d :: runScroll r.1 rest
    | none => runScroll r.1 rest

/-- Minimum of `a` and all members of `l` (specification-side helper). -/
def foldMin (a : ℚ) (l : List ℚ) : ℚ := l.foldl min a

/-- Maximum of `a` and all members of `l` (specification-side helper). -/
def foldMax (a : ℚ) (l : List ℚ) : ℚ := l.foldl max a

/-- The bounding rectangle the specification prescribes for a rectangle list
with head `r` and tail `rs`: componentwise min of the left/top edges and max
of the right/bottom edges. -/
def mergedOf (r : Rect) (rs : List Rect) : Rect where
  x := foldMin r.x (rs.map Rect.x)
  y := foldMin r.y (rs.map Rect.y)
  width := foldMax (r.x + r.width) (rs.map (fun t => t.x + t.width)) -
    foldMin r.x (rs.map Rect.x)
  height := foldMax (r.y + r.height) (rs.map (fun t => t.y + t.height)) -
    foldMin r.y (rs.map Rect.y)

/-- `b` contains `t` as an axis-aligned rectangle. -/
abbrev containsRect (b t : Rect) : Prop :=
  b.x ≤ t.x ∧ b.y ≤ t.y ∧ t.x + t.width ≤ b.x + b.width ∧
    t.y + t.height ≤ b.y + b.height

theorem foldMin_le_init (l : List ℚ) (a : ℚ) : foldMin a l ≤ a := by
  induction l generalizing a with
  | nil => exact le_refl a
  | cons x t ih =>
    calc foldMin a (x :: t) = foldMin (min a x) t := rfl
    _ ≤ min a x := ih (min a x)
    _ ≤ a := min_le_left a x

theorem foldMin_le_mem (l : List ℚ) (a x : ℚ) (hx : x ∈ l) : foldMin a l ≤ x := by
  induction l generalizing a with
  | nil => cases hx
  | cons y t ih =>
    rcases List.mem_cons.mp hx with h | h
    · subst h
      calc foldMin a (x :: t) = foldMin (min a x) t := rfl
      _ ≤ min a x := foldMin_le_init t (min a x)
      _ ≤ x := min_le_right a x
    · exact ih (min a y) h

theorem le_foldMin (l : List ℚ) (a c : ℚ) (hc : c ≤ a) (h : ∀ x ∈ l, c ≤ x) :
    c ≤ foldMin a l := by
  induction l generalizing a with
  | nil => exact hc
  | cons y t ih =>
    exact ih (min a y) (le_min hc (h y (List.mem_cons_self y t)))
      (fun x hx => h x (List.mem_cons_of_mem y hx))

theorem init_le_foldMax (l : List ℚ) (a : ℚ) : a ≤ foldMax a l := by
  induction l generalizing a with
  | nil => exact le_refl a
  | cons x t ih =>
    calc a ≤ max a x := le_max_left a x
    _ ≤ foldMax (max a x) t := ih (max a x)
    _ = foldMax a (x :: t) := rfl

theorem mem_le_foldMax (l : List ℚ) (a x : ℚ) (hx : x ∈ l) : x ≤ foldMax a l := by
  induction l generalizing a with
  | nil => cases hx
  | cons y t ih =>
    rcases List.mem_cons.mp hx with h | h
    · subst h
      calc x ≤ max a x := le_max_right a x
      _ ≤ foldMax (max a x) t := init_le_foldMax t (max a x)
      _ = foldMax a (x :: t) := rfl
    · exact ih (max a y) h

theorem foldMax_le (l : List ℚ) (a c : ℚ) (hc : a ≤ c) (h : ∀ x ∈ l, x ≤ c) :
    foldMax a l ≤ c := by
  induction l generalizing a with
  | nil => exact hc
  | cons y t ih =>
    exact ih (max a y) (max_le hc (h y (List.mem_cons_self y t)))
      (fun x hx => h x (List.mem_cons_of_mem y hx))

theorem foldl_mergeStep_some (l : List Rect) (a b c d : ℚ) :
    l.foldl mergeStep ⟨some a, some b, some c, some d⟩ =
      ⟨some (foldMin a (l.map Rect.x)), some (foldMin b (l.map Rect.y)),
       some (foldMax c (l.map (fun t => t.x + t.width))),
       some (foldMax d (l.map (fun t => t.y + t.height)))⟩ := by
  induction l generalizing a b c d with
  | nil => rfl
  | cons r t ih =>
    exact ih (min a r.x) (min b r.y) (max c (r.x + r.width)) (max d (r.y + r.height))

theorem mergeRects_cons_cons (r r1 : Rect) (rs : List Rect) :
    mergeRects (r :: r1 :: rs) = some (mergedOf r (r1 :: rs)) := by
  have hfold : List.foldl mergeStep ⟨none, none, none, none⟩ (r :: r1 :: rs) =
      (⟨some (foldMin r.x ((r1 :: rs).map Rect.x)),
        some (foldMin r.y ((r1 :: rs).map Rect.y)),
        some (foldMax (r.x + r.width) ((r1 :: rs).map (fun t => t.x + t.width))),
        some (foldMax (r.y + r.height)
          ((r1 :: rs).map (fun t => t.y + t.height)))⟩ : MergeAcc) :=
    foldl_mergeStep_some (r1 :: rs) r.x r.y (r.x + r.width) (r.y + r.height)
  simp only [mergeRects, hfold]
  rfl

/-- Claim C2: `mergeRects` returns a singleton unchanged; on two or more
rectangles it returns the rectangle whose left/top edges are the minima of
all the input left/top edges and whose width/height reach to the maxima of
the input right/bottom edges, which is the minimal axis-aligned bounding
rectangle containing every input.  (The embedding is a pure function, so
input rectangles are never mutated.) -/
theorem mergeRects_bounding (r : Rect) (rs : List Rect) :
    (rs = [] → mergeRects [r] = some r) ∧
    (rs ≠ [] →
      mergeRects (r :: rs) = some (mergedOf r rs) ∧
      (∀ t ∈ r :: rs, containsRect (mergedOf r rs) t) ∧
      (∀ b : Rect, (∀ t ∈ r :: rs, containsRect b t) →
        containsRect b (mergedOf r rs))) := by
  constructor
  · intro h
    subst h
    rfl
  · intro hne
    obtain ⟨r1, rs', rfl⟩ : ∃ r1 rs', rs = r1 :: rs' := by
      cases rs with
      | nil => exact absurd rfl hne
      | cons r1 rs' => exact ⟨r1, rs', rfl⟩
    have hxw : (mergedOf r (r1 :: rs')).x + (mergedOf r (r1 :: rs')).width =
        foldMax (r.x + r.width) ((r1 :: rs').map (fun t => t.x + t.width)) := by
      show foldMin r.x ((r1 :: rs').map Rect.x) +
        (foldMax (r.x + r.width) ((r1 :: rs').map (fun t => t.x + t.width)) -
          foldMin r.x ((r1 :: rs').map Rect.x)) = _
      ring
    have hyh : (mergedOf r (r1 :: rs')).y + (mergedOf r (r1 :: rs')).height =
        foldMax (r.y + r.height) ((r1 :: rs').map (fun t => t.y + t.height)) := by
      show foldMin r.y ((r1 :: rs').map Rect.y) +
        (foldMax (r.y + r.height) ((r1 :: rs').map (fun t => t.y + t.height)) -
          foldMin r.y ((r1 :: rs').map Rect.y)) = _
      ring
    refine ⟨mergeRects_cons_cons r r1 rs', ?_, ?_⟩
    · intro t ht
      rcases List.mem_cons.mp ht with h | h
      · subst h
        refine ⟨foldMin_le_init _ _, foldMin_le_init _ _, ?_, ?_⟩
        · rw [hxw]
          exact init_le_foldMax _ _
        · rw [hyh]
          exact init_le_foldMax _ _
      · refine ⟨foldMin_le_mem _ _ _ (List.mem_map_of_mem Rect.x h),
          foldMin_le_mem _ _ _ (List.mem_map_of_mem Rect.y h), ?_, ?_⟩
        · rw [hxw]
          exact mem_le_foldMax _ _ _ (List.mem_map_of_mem (fun t => t.x + t.width) h)
        · rw [hyh]
          exact mem_le_foldMax _ _ _ (List.mem_map_of_mem (fun t => t.y + t.height) h)
    · intro b hb
      have hbr := hb r (List.mem_cons_self r (r1 :: rs'))
      refine ⟨?_, ?_, ?_, ?_⟩
      · refine le_foldMin _ _ _ hbr.1 ?_
        intro x hx
        obtain ⟨t, ht, rfl⟩ := List.mem_map.mp hx
        exact (hb t (List.mem_cons_of_mem r ht)).1
      · refine le_foldMin _ _ _ hbr.2.1 ?_
        intro x hx
        obtain ⟨t, ht, rfl⟩ := List.mem_map.mp hx
        exact (hb t (List.mem_cons_of_mem r ht)).2.1
      · rw [hxw]
        refine foldMax_le _ _ _ hbr.2.2.1 ?_
        intro x hx
        obtain ⟨t, ht, rfl⟩ := List.mem_map.mp hx
        exact (hb t (List.mem_cons_of_mem r ht)).2.2.1
      · rw [hyh]
        refine foldMax_le _ _ _ hbr.2.2.2 ?_
        intro x hx
        obtain ⟨t, ht, rfl⟩ := List.mem_map.mp hx
        exact (hb t (List.mem_cons_of_mem r ht)).2.2.2

/-- Witness for `mergeRects_bounding` at the two-rectangle input of the
end-to-end scenario of the specification. -/
theorem mergeRects_bounding_witness :
    ([(⟨20, 20, 10, 10⟩ : Rect)] ≠ ([] : List Rect)) ∧
    (mergeRects [⟨0, 0, 10, 10⟩, ⟨20, 20, 10, 10⟩] =
        some (mergedOf ⟨0, 0, 10, 10⟩ [⟨20, 20, 10, 10⟩]) ∧
      (∀ t ∈ [(⟨0, 0, 10, 10⟩ : Rect), ⟨20, 20, 10, 10⟩],
        containsRect (mergedOf ⟨0, 0, 10, 10⟩ [⟨20, 20, 10, 10⟩]) t) ∧
      (∀ b : Rect,
        (∀ t ∈ [(⟨0, 0, 10, 10⟩ : Rect), ⟨20, 20, 10, 10⟩], containsRect b t) →
        containsRect b (mergedOf ⟨0, 0, 10, 10⟩ [⟨20, 20, 10, 10⟩]))) :=
  ⟨by decide,
   (mergeRects_bounding ⟨0, 0, 10, 10⟩ [⟨20, 20, 10, 10⟩]).2 (by decide)⟩

theorem mapGet_mapSet_self {α β : Type} [DecidableEq α] (m : List (α × β))
    (k : α) (v : β) : mapGet (mapSet m k v) k = some v := by
  induction m with
  | nil => simp [mapSet, mapGet]
  | cons p t ih =>
    obtain ⟨k2, v2⟩ := p
    by_cases h : k2 = k
    · simp [mapSet, mapGet, h]
    · simp [mapSet, mapGet, h, ih]

theorem outlineFiber_insert (s : AggState) (f : Fiber) (name : String)
    (hc : f.isComposite = true) (hn : f.displayName = some name)
    (h0 : mapGet s.blueprintMap f.fid = none) :
    mapGet (outlineFiber s f).blueprintMap f.fid =
      some { name := name, count := 1, elements := f.hostNodes,
             didCommit := if f.committed then 1 else 0 } := by
  simp [outlineFiber, hc, hn, h0, mapGet_mapSet_self]

theorem outlineFiber_existing (s : AggState) (f : Fiber) (name : String)
    (bp : BlueprintOutline)
    (hc : f.isComposite = true) (hn : f.displayName = some name)
    (h0 : mapGet s.blueprintMap f.fid = some bp) :
    mapGet (outlineFiber s f).blueprintMap f.fid =
      some { bp with count := bp.count + 1 } := by
  simp [outlineFiber, hc, hn, h0, mapGet_mapSet_self]

theorem foldl_outlineFiber_existing (fs : List Fiber) (k : ℕ) (s : AggState)
    (bp : BlueprintOutline)
    (hall : ∀ g ∈ fs, g.fid = k ∧ g.isComposite = true ∧ g.displayName.isSome)
    (h0 : mapGet s.blueprintMap k = some bp) :
    mapGet (fs.foldl outlineFiber s).blueprintMap k =
      some { bp with count := bp.count + fs.length } := by
  induction fs generalizing s bp with
  | nil => simpa using h0
  | cons g t ih =>
    obtain ⟨hk, hc, hn⟩ := hall g (List.mem_cons_self g t)
    obtain ⟨nm, hnm⟩ := Option.isSome_iff_exists.mp hn
    have hstep := outlineFiber_existing s g nm bp hc hnm (by rw [hk]; exact h0)
    rw [List.foldl_cons]
    have hrec := ih (outlineFiber s g) { bp with count := bp.count + 1 }
      (fun x hx => hall x (List.mem_cons_of_mem g hx))
      (by rw [← hk]; exact hstep)
    rw [hrec]
    have harith : bp.count + 1 + t.length = bp.count + (g :: t).length := by
      simp
      omega
    simp [harith]

/-- Claim C1 counterexample: the same composite named fiber identity is
recorded twice in one cycle, first with `didFiberCommit` false and then with
it true.  The resulting blueprint keeps `didCommit = 0`, the value of the
FIRST call, not the claimed value 1 of the last call (the repeat branch of
`outlineFiber` only runs `blueprint.count++`). -/
theorem outlineFiber_lastDidCommit_cex :
    (mapGet ((outlineFiber (outlineFiber ⟨[], []⟩ ⟨5, true, some "A", [], false⟩)
        ⟨5, true, some "A", [], true⟩).blueprintMap) 5).map BlueprintOutline.count =
      some 2 ∧
    (mapGet ((outlineFiber (outlineFiber ⟨[], []⟩ ⟨5, true, some "A", [], false⟩)
        ⟨5, true, some "A", [], true⟩).blueprintMap) 5).map BlueprintOutline.didCommit =
      some 0 ∧
    (0 : ℕ) ≠ 1 := by
  decide

/-- Claim C1 (amended): for a sequence of N recording calls that reference
the same instance identity within one cycle (all passing the composite and
name guards), the resulting blueprint has `count = N` and `didCommit` equal
to the FIRST call commit flag; a repeat call for an existing blueprint
increments `count` by one and leaves `didCommit` (and `name` and `elements`)
unchanged. -/
theorem outlineFiber_count_firstDidCommit (f : Fiber) (fs : List Fiber)
    (s0 : AggState) (name : String)
    (hall : ∀ g ∈ fs, g.fid = f.fid ∧ g.isComposite = true ∧ g.displayName.isSome)
    (hc : f.isComposite = true) (hn : f.displayName = some name)
    (h0 : mapGet s0.blueprintMap f.fid = none) :
    mapGet (((f :: fs).foldl outlineFiber s0).blueprintMap) f.fid =
      some { name := name, count := fs.length + 1, elements := f.hostNodes,
             didCommit := if f.committed then 1 else 0 } := by
  rw [List.foldl_cons]
  have h1 := outlineFiber_insert s0 f name hc hn h0
  have hrec := foldl_outlineFiber_existing fs f.fid (outlineFiber s0 f) _ hall h1
  rw [hrec]
  have harith : 1 + fs.length = fs.length + 1 := by omega
  simp [harith]

/-- Witness for `outlineFiber_count_firstDidCommit`: identity 5 recorded
twice, first call not committed, second call committed; the blueprint ends
with `count = 2` and `didCommit = 0`. -/
theorem outlineFiber_count_firstDidCommit_witness :
    (∀ g ∈ [(⟨5, true, some "A", [], true⟩ : Fiber)],
      g.fid = (⟨5, true, some "A", [], false⟩ : Fiber).fid ∧
      g.isComposite = true ∧ g.displayName.isSome) ∧
    mapGet ((([(⟨5, true, some "A", [], false⟩ : Fiber),
        ⟨5, true, some "A", [], true⟩].foldl outlineFiber ⟨[], []⟩)).blueprintMap)
      (⟨5, true, some "A", [], false⟩ : Fiber).fid =
      some { name := "A", count := 2, elements := [], didCommit := 0 } :=
  ⟨by decide,
   outlineFiber_count_firstDidCommit ⟨5, true, some "A", [], false⟩
     [⟨5, true, some "A", [], true⟩] ⟨[], []⟩ "A"
     (by decide) (by decide) (by decide) (by decide)⟩

/-- Claim C5: one merge step of `CanvasOutlineRenderer.updateOutlines`.
A record whose id (keyed by its string form) is not yet active creates a
fresh animating entry with `frame = 0` whose current position equals its
target position; a record whose id is active overwrites the target fields
and `didCommit`, resets `frame` to 0 and increments `count`, leaving the
current `x`, `y`, `width`, `height` (and `id` and `name`) unchanged, as the
record update form of the conclusion shows. -/
theorem canvasUpdateOutline_merge (m : List (String × ActiveOutline))
    (o : OutlineData) :
    (mapGet m (toString o.id) = none →
      mapGet (CanvasOutlineRenderer.updateOutline m o) (toString o.id) =
        some (CanvasOutlineRenderer.toActiveOutline o) ∧
      (CanvasOutlineRenderer.toActiveOutline o).frame = 0 ∧
      (CanvasOutlineRenderer.toActiveOutline o).x =
        (CanvasOutlineRenderer.toActiveOutline o).targetX ∧
      (CanvasOutlineRenderer.toActiveOutline o).y =
        (CanvasOutlineRenderer.toActiveOutline o).targetY ∧
      (CanvasOutlineRenderer.toActiveOutline o).width =
        (CanvasOutlineRenderer.toActiveOutline o).targetWidth ∧
      (CanvasOutlineRenderer.toActiveOutline o).height =
        (CanvasOutlineRenderer.toActiveOutline o).targetHeight) ∧
    (∀ e, mapGet m (toString o.id) = some e →
      mapGet (CanvasOutlineRenderer.updateOutline m o) (toString o.id) =
        some { e with
          count := e.count + 1
          frame := 0
          targetX := o.x
          targetY := o.y
          targetWidth := o.width
          targetHeight := o.height
          didCommit := o.didCommit }) := by
  constructor
  · intro h
    refine ⟨?_, rfl, rfl, rfl, rfl, rfl⟩
    simp [CanvasOutlineRenderer.updateOutline, CanvasOutlineRenderer.toActiveOutline,
      h, mapGet_mapSet_self]
  · intro e h
    simp [CanvasOutlineRenderer.updateOutline, CanvasOutlineRenderer.toActiveOutline,
      h, mapGet_mapSet_self]

/-- Witness for `canvasUpdateOutline_merge`: a fresh record on an empty map
and a repeat record against one explicit active entry. -/
theorem canvasUpdateOutline_merge_witness :
    (mapGet ([] : List (String × ActiveOutline)) (toString (1 : ℕ)) = none ∧
      mapGet (CanvasOutlineRenderer.updateOutline [] ⟨1, "name", 3, 1, 2, 3, 4, 1⟩)
          (toString (1 : ℕ)) =
        some (CanvasOutlineRenderer.toActiveOutline ⟨1, "name", 3, 1, 2, 3, 4, 1⟩)) ∧
    (mapGet [((toString (1 : ℕ)),
        (⟨1, "name", 3, 10, 20, 30, 40, 5, 11, 21, 31, 41, 0⟩ : ActiveOutline))]
        (toString (1 : ℕ)) =
      some (⟨1, "name", 3, 10, 20, 30, 40, 5, 11, 21, 31, 41, 0⟩ : ActiveOutline) ∧
      mapGet (CanvasOutlineRenderer.updateOutline
          [((toString (1 : ℕ)),
            (⟨1, "name", 3, 10, 20, 30, 40, 5, 11, 21, 31, 41, 0⟩ : ActiveOutline))]
          ⟨1, "name", 3, 1, 2, 3, 4, 1⟩) (toString (1 : ℕ)) =
        some (⟨1, "name", 4, 10, 20, 30, 40, 0, 1, 2, 3, 4, 1⟩ : ActiveOutline)) :=
  ⟨⟨by decide,
    ((canvasUpdateOutline_merge [] ⟨1, "name", 3, 1, 2, 3, 4, 1⟩).1 (by decide)).1⟩,
   ⟨by decide,
    (canvasUpdateOutline_merge
        [((toString (1 : ℕ)),
          (⟨1, "name", 3, 10, 20, 30, 40, 5, 11, 21, 31, 41, 0⟩ : ActiveOutline))]
        ⟨1, "name", 3, 1, 2, 3, 4, 1⟩).2
      ⟨1, "name", 3, 10, 20, 30, 40, 5, 11, 21, 31, 41, 0⟩ (by decide)⟩⟩

theorem packOutlineData_length (o : OutlineData) : (packOutlineData o).length = 7 :=
  rfl

theorem flatten_pack_length (l : List OutlineData) :
    ((l.map packOutlineData).flatten).length = l.length * 7 := by
  induction l with
  | nil => rfl
  | cons g t ih =>
    simp only [List.map_cons, List.flatten_cons, List.length_append, ih,
      packOutlineData_length, List.length_cons]
    ring

theorem flatten_pack_window (l : List OutlineData) (i : ℕ) (h : i < l.length) :
    (((l.map packOutlineData).flatten).drop (7 * i)).take 7 =
      packOutlineData (l.get ⟨i, h⟩) := by
  induction l generalizing i with
  | nil => cases h
  | cons g t ih =>
    cases i with
    | zero =>
      simp only [Nat.mul_zero, List.drop_zero, List.map_cons, List.flatten_cons,
        List.get]
      rw [← packOutlineData_length g]
      exact List.take_left (packOutlineData g) _
    | succ j =>
      have hj : j < t.length := by
        simpa using Nat.lt_of_succ_lt_succ h
      have hdrop : ((g :: t).map packOutlineData).flatten.drop (7 * (j + 1)) =
          ((t.map packOutlineData).flatten).drop (7 * j) := by
        have h7 : 7 * (j + 1) = (packOutlineData g).length + 7 * j := by
          rw [packOutlineData_length]
          omega
        simp only [List.map_cons, List.flatten_cons, h7]
        exact List.drop_append (7 * j)
      rw [hdrop]
      exact ih j hj

/-- Claim C4: `WorkerOutlineRenderer.renderOutlines` packs N records into a
buffer of exactly N × 7 × 4 bytes of 4-byte slots, record i occupying slots
7i to 7i+6 in the order id, count, x, y, width, height, didCommit, while the
names travel as a parallel list of length N aligned by index. -/
theorem workerRenderOutlines_layout (outlines : List OutlineData) :
    (WorkerOutlineRenderer.renderOutlines outlines).byteLength =
      outlines.length * 7 * 4 ∧
    (WorkerOutlineRenderer.renderOutlines outlines).byteLength =
      (WorkerOutlineRenderer.renderOutlines outlines).data.length * 4 ∧
    (WorkerOutlineRenderer.renderOutlines outlines).data.length =
      outlines.length * 7 ∧
    (WorkerOutlineRenderer.renderOutlines outlines).names =
      outlines.map OutlineData.name ∧
    (WorkerOutlineRenderer.renderOutlines outlines).names.length =
      outlines.length ∧
    (∀ i, (h : i < outlines.length) →
      (((WorkerOutlineRenderer.renderOutlines outlines).data.drop (7 * i)).take 7 =
        packOutlineData (outlines.get ⟨i, h⟩))) := by
  refine ⟨rfl, ?_, ?_, rfl, by simp [WorkerOutlineRenderer.renderOutlines], ?_⟩
  · show outlines.length * OUTLINE_ARRAY_SIZE * 4 =
      ((outlines.map packOutlineData).flatten).length * 4
    rw [flatten_pack_length]
    rfl
  · exact flatten_pack_length outlines
  · intro i h
    exact flatten_pack_window outlines i h

/-- Witness for `workerRenderOutlines_layout` at the offload scenario input
of the specification; also records the concrete message: a 28-byte buffer
with slots 1, 3, 1, 2, 3, 4, 1 and a one-element name list. -/
theorem workerRenderOutlines_layout_witness :
    (0 < ([(⟨1, "name", 3, 1, 2, 3, 4, 1⟩ : OutlineData)]).length) ∧
    (((WorkerOutlineRenderer.renderOutlines
        [(⟨1, "name", 3, 1, 2, 3, 4, 1⟩ : OutlineData)]).data.drop (7 * 0)).take 7 =
      packOutlineData (([(⟨1, "name", 3, 1, 2, 3, 4, 1⟩ : OutlineData)]).get
        ⟨0, by decide⟩)) ∧
    WorkerOutlineRenderer.renderOutlines
        [(⟨1, "name", 3, 1, 2, 3, 4, 1⟩ : OutlineData)] =
      ⟨28, [1, 3, 1, 2, 3, 4, 1], ["name"]⟩ :=
  ⟨by decide,
   (workerRenderOutlines_layout [⟨1, "name", 3, 1, 2, 3, 4, 1⟩]).2.2.2.2.2 0
     (by decide),
   by decide⟩

theorem partitionNew_seen_eq (entries : List ObserverEntry) (seen : List NodeRef) :
    (partitionNew seen entries).2 =
      seen ++ ((partitionNew seen entries).1.map ObserverEntry.target) := by
  induction entries generalizing seen with
  | nil => simp [partitionNew]
  | cons entry rest ih =>
    by_cases h : entry.target ∈ seen
    · simp [partitionNew, h, ih]
    · simp only [partitionNew, h, if_false]
      rw [ih (seen ++ [entry.target])]
      simp

theorem partitionNew_nodup (entries : List ObserverEntry) (seen : List NodeRef)
    (h : seen.Nodup) : (partitionNew seen entries).2.Nodup := by
  induction entries generalizing seen with
  | nil => simpa [partitionNew]
  | cons entry rest ih =>
    by_cases hm : entry.target ∈ seen
    · simp only [partitionNew, hm, if_true]
      exact ih seen h
    · simp only [partitionNew, hm, if_false]
      refine ih (seen ++ [entry.target]) ?_
      simp [List.nodup_append, h, hm]

theorem partitionNew_target_mem (entries : List ObserverEntry) (seen : List NodeRef)
    (e : ObserverEntry) (he : e ∈ entries) :
    e.target ∈ (partitionNew seen entries).2 := by
  induction entries generalizing seen with
  | nil => cases he
  | cons entry rest ih =>
    rcases List.mem_cons.mp he with h | h
    · subst h
      by_cases hm : e.target ∈ seen
      · simp only [partitionNew, hm, if_true]
        rw [partitionNew_seen_eq]
        exact List.mem_append_left _ hm
      · simp only [partitionNew, hm, if_false]
        rw [partitionNew_seen_eq]
        exact List.mem_append_left _ (by simp)
    · by_cases hm : entry.target ∈ seen
      · simp only [partitionNew, hm, if_true]
        exact ih seen h
      · simp only [partitionNew, hm, if_false]
        exact ih (seen ++ [entry.target]) h

theorem observerCallback_seen (s : ResolverState) (b : List ObserverEntry) :
    (observerCallback s b).1.seenElements = (partitionNew s.seenElements b).2 := by
  by_cases h : (partitionNew s.seenElements b).2.length = s.uniqueElements.length <;>
    simp [observerCallback, h]

theorem observerCallback_unique (s : ResolverState) (b : List ObserverEntry) :
    (observerCallback s b).1.uniqueElements = s.uniqueElements := by
  by_cases h : (partitionNew s.seenElements b).2.length = s.uniqueElements.length <;>
    simp [observerCallback, h]

theorem observerCallback_done_mono (s : ResolverState) (b : List ObserverEntry)
    (hd : s.done = true) : (observerCallback s b).1.done = true := by
  by_cases h : (partitionNew s.seenElements b).2.length = s.uniqueElements.length <;>
    simp [observerCallback, h, hd]

theorem observerCallback_delivered_some (s : ResolverState) (b : List ObserverEntry)
    (hw : s.waiting = true) (hne : (partitionNew s.seenElements b).1 ≠ []) :
    (observerCallback s b).2 = some (partitionNew s.seenElements b).1 ∧
    (observerCallback s b).1.waiting = false := by
  by_cases h : (partitionNew s.seenElements b).2.length = s.uniqueElements.length <;>
    simp [observerCallback, h, hw, hne]

theorem observerCallback_delivered_nil (s : ResolverState) (b : List ObserverEntry)
    (he : (partitionNew s.seenElements b).1 = []) :
    (observerCallback s b).2 = none ∨ (observerCallback s b).2 = some [] := by
  by_cases h : (partitionNew s.seenElements b).2.length = s.uniqueElements.length
  · simp only [observerCallback, h, if_true, he]
    by_cases hw : s.waiting = true <;> simp [hw]
  · simp [observerCallback, h, he]

theorem observerCallback_not_waiting (s : ResolverState) (b : List ObserverEntry)
    (hw : s.waiting = false) : (observerCallback s b).2 = none := by
  by_cases h : (partitionNew s.seenElements b).2.length = s.uniqueElements.length <;>
    simp [observerCallback, h, hw]

theorem partitionNew_fst_subset (entries : List ObserverEntry) (seen : List NodeRef) :
    ∀ e ∈ (partitionNew seen entries).1, e ∈ entries := by
  induction entries generalizing seen with
  | nil => intro e he; cases he
  | cons entry rest ih =>
    intro e he
    by_cases hm : entry.target ∈ seen
    · simp only [partitionNew, hm, if_true] at he
      exact List.mem_cons_of_mem entry (ih seen e he)
    · simp only [partitionNew, hm, if_false] at he
      rcases List.mem_cons.mp he with h | h
      · exact h ▸ List.mem_cons_self entry rest
      · exact List.mem_cons_of_mem entry (ih (seen ++ [entry.target]) e h)

theorem observerCallback_done_false_length (s : ResolverState)
    (b : List ObserverEntry) (hd : (observerCallback s b).1.done = false) :
    (partitionNew s.seenElements b).2.length ≠ s.uniqueElements.length := by
  intro h
  simp [observerCallback, h] at hd

theorem runResolver_done (s : ResolverState) (bursts : List (List ObserverEntry))
    (hd : s.done = true) : runResolver s bursts = ([], s) := by
  cases bursts with
  | nil => rfl
  | cons b bs => simp [runResolver, hd]

theorem runResolver_cons (s : ResolverState) (b : List ObserverEntry)
    (bs : List (List ObserverEntry)) (hds : s.done = false) :
    runResolver s (b :: bs) =
      ((match (observerCallback { s with waiting := true } b).2 with
        | some es =>
          if es.isEmpty then
            (runResolver (observerCallback { s with waiting := true } b).1 bs).1
          else es :: (runResolver (observerCallback { s with waiting := true } b).1 bs).1
        | none => (runResolver (observerCallback { s with waiting := true } b).1 bs).1),
       (runResolver (observerCallback { s with waiting := true } b).1 bs).2) := by
  simp [runResolver, hds]

theorem runResolver_seen (bursts : List (List ObserverEntry)) (s : ResolverState) :
    (runResolver s bursts).2.seenElements =
      s.seenElements ++ ((runResolver s bursts).1.flatten.map ObserverEntry.target) := by
  induction bursts generalizing s with
  | nil => simp [runResolver]
  | cons b bs ih =>
    by_cases hd : s.done = true
    · simp [runResolver_done s (b :: bs) hd]
    · have hds : s.done = false := by revert hd; cases s.done <;> simp
      rw [runResolver_cons s b bs hds]
      have hseen : (observerCallback { s with waiting := true } b).1.seenElements =
          s.seenElements ++
            ((partitionNew s.seenElements b).1.map ObserverEntry.target) := by
        rw [observerCallback_seen]
        exact partitionNew_seen_eq b s.seenElements
      by_cases hne : (partitionNew s.seenElements b).1 = []
      · rcases observerCallback_delivered_nil { s with waiting := true } b hne
          with h2 | h2 <;>
        · rw [h2]
          simp only [List.isEmpty_nil, if_true]
          rw [ih (observerCallback { s with waiting := true } b).1, hseen, hne]
          simp
      · have hsome := observerCallback_delivered_some { s with waiting := true } b rfl hne
        rw [hsome.1]
        have hE : ((partitionNew s.seenElements b).1).isEmpty = false := by
          revert hne
          cases (partitionNew s.seenElements b).1 <;> simp
        simp only [hE, Bool.false_eq_true, if_false]
        rw [List.flatten_cons, List.map_append,
          ih (observerCallback { s with waiting := true } b).1, hseen,
          List.append_assoc]

theorem runResolver_seen_nodup (bursts : List (List ObserverEntry))
    (s : ResolverState) (h : s.seenElements.Nodup) :
    (runResolver s bursts).2.seenElements.Nodup := by
  induction bursts generalizing s with
  | nil => simpa [runResolver]
  | cons b bs ih =>
    by_cases hd : s.done = true
    · simpa [runResolver_done s (b :: bs) hd]
    · have hds : s.done = false := by revert hd; cases s.done <;> simp
      rw [runResolver_cons s b bs hds]
      apply ih
      rw [observerCallback_seen]
      exact partitionNew_nodup b s.seenElements h

theorem runResolver_unique (bursts : List (List ObserverEntry)) (s : ResolverState) :
    (runResolver s bursts).2.uniqueElements = s.uniqueElements := by
  induction bursts generalizing s with
  | nil => simp [runResolver]
  | cons b bs ih =>
    by_cases hd : s.done = true
    · simp [runResolver_done s (b :: bs) hd]
    · have hds : s.done = false := by revert hd; cases s.done <;> simp
      rw [runResolver_cons s b bs hds]
      show (runResolver (observerCallback { s with waiting := true } b).1 bs).2.uniqueElements = _
      rw [ih, observerCallback_unique]

theorem runResolver_covered (bursts : List (List ObserverEntry)) (s : ResolverState)
    (hnd : (runResolver s bursts).2.done = false) :
    ∀ b ∈ bursts, ∀ e ∈ b, e.target ∈ (runResolver s bursts).2.seenElements := by
  induction bursts generalizing s with
  | nil => intro b hb; cases hb
  | cons b0 bs ih =>
    by_cases hd : s.done = true
    · rw [runResolver_done s (b0 :: bs) hd] at hnd
      exact absurd hd (by simp [hnd] at hnd ⊢; simp [hnd])
    · have hds : s.done = false := by revert hd; cases s.done <;> simp
      rw [runResolver_cons s b0 bs hds] at hnd ⊢
      intro b2 hb2 e he
      show e.target ∈
        (runResolver (observerCallback { s with waiting := true } b0).1 bs).2.seenElements
      rcases List.mem_cons.mp hb2 with h | h
      · subst h
        have h1 : e.target ∈
            (observerCallback { s with waiting := true } b2).1.seenElements := by
          rw [observerCallback_seen]
          exact partitionNew_target_mem b2 s.seenElements e he
        rw [runResolver_seen bs (observerCallback { s with waiting := true } b2).1]
        exact List.mem_append_left _ h1
      · exact ih (observerCallback { s with waiting := true } b0).1 hnd b2 h e he

theorem runResolver_terminates (bursts : List (List ObserverEntry))
    (s : ResolverState)
    (hnd : s.done = false)
    (hun : s.uniqueElements.Nodup) (hsn : s.seenElements.Nodup)
    (hsub : ∀ x ∈ s.seenElements, x ∈ s.uniqueElements)
    (hval : ∀ b ∈ bursts, ∀ e ∈ b, e.target ∈ s.uniqueElements)
    (hcov : ∀ x ∈ s.uniqueElements,
      x ∈ s.seenElements ∨ ∃ b ∈ bursts, ∃ e ∈ b, e.target = x)
    (hmiss : ∃ x ∈ s.uniqueElements, x ∉ s.seenElements) :
    (runResolver s bursts).2.done = true := by
  induction bursts generalizing s with
  | nil =>
    obtain ⟨x, hxu, hxs⟩ := hmiss
    rcases hcov x hxu with h | h
    · exact absurd h hxs
    · obtain ⟨b, hb, _⟩ := h
      cases hb
  | cons b0 bs ih =>
    rw [runResolver_cons s b0 bs hnd]
    show (runResolver (observerCallback { s with waiting := true } b0).1 bs).2.done = true
    by_cases hrd : (observerCallback { s with waiting := true } b0).1.done = true
    · rw [runResolver_done (observerCallback { s with waiting := true } b0).1 bs hrd]
      exact hrd
    · have hrds : (observerCallback { s with waiting := true } b0).1.done = false := by
        revert hrd
        cases (observerCallback { s with waiting := true } b0).1.done <;> simp
      have hseen : (observerCallback { s with waiting := true } b0).1.seenElements =
          (partitionNew s.seenElements b0).2 := observerCallback_seen _ b0
      have huniq : (observerCallback { s with waiting := true } b0).1.uniqueElements =
          s.uniqueElements := observerCallback_unique _ b0
      have hseq := partitionNew_seen_eq b0 s.seenElements
      have hsn2 : (partitionNew s.seenElements b0).2.Nodup :=
        partitionNew_nodup b0 s.seenElements hsn
      have hsub2 : ∀ x ∈ (partitionNew s.seenElements b0).2, x ∈ s.uniqueElements := by
        intro x hx
        rw [hseq] at hx
        rcases List.mem_append.mp hx with h | h
        · exact hsub x h
        · obtain ⟨e, he, rfl⟩ := List.mem_map.mp h
          exact hval b0 (List.mem_cons_self b0 bs) e (partitionNew_fst_subset b0 s.seenElements e he)
      apply ih (observerCallback { s with waiting := true } b0).1 hrds
      · rw [huniq]
        exact hun
      · rw [hseen]
        exact hsn2
      · intro x hx
        rw [huniq]
        rw [hseen] at hx
        exact hsub2 x hx
      · intro b hb e he
        rw [huniq]
        exact hval b (List.mem_cons_of_mem b0 hb) e he
      · intro x hx
        rw [huniq] at hx
        rw [hseen]
        rcases hcov x hx with h | h
        · left
          rw [hseq]
          exact List.mem_append_left _ h
        · obtain ⟨b, hb, e, he, rfl⟩ := h
          rcases List.mem_cons.mp hb with h2 | h2
          · left
            subst h2
            exact partitionNew_target_mem b s.seenElements e he
          · right
            exact ⟨b, h2, e, he, rfl⟩
      · -- the observer did not disconnect, so the seen set is still short of
        -- the unique set and some element is still missing
        have hlen : (partitionNew s.seenElements b0).2.length ≠
            s.uniqueElements.length :=
          observerCallback_done_false_length { s with waiting := true } b0 hrds
        by_contra hall
        push_neg at hall
        rw [huniq, hseen] at hall
        have hsup : ∀ x ∈ s.uniqueElements, x ∈ (partitionNew s.seenElements b0).2 :=
          hall
        have h1 : (partitionNew s.seenElements b0).2.length ≤ s.uniqueElements.length :=
          (hsn2.subperm hsub2).length_le
        have h2 : s.uniqueElements.length ≤ (partitionNew s.seenElements b0).2.length :=
          (hun.subperm hsup).length_le
        omega

theorem setAdd_nodup {α : Type} [DecidableEq α] (xs : List α) (x : α)
    (h : xs.Nodup) : (setAdd xs x).Nodup := by
  unfold setAdd
  by_cases hm : x ∈ xs
  · simpa [hm]
  · simp [List.nodup_append, h, hm]

theorem mem_setAdd {α : Type} [DecidableEq α] (xs : List α) (x y : α) :
    y ∈ setAdd xs x ↔ y ∈ xs ∨ y = x := by
  unfold setAdd
  by_cases hm : x ∈ xs
  · simp only [hm, if_true]
    constructor
    · exact Or.inl
    · rintro (h | rfl)
      · exact h
      · exact hm
  · simp [hm]

theorem foldl_setAdd_nodup {α : Type} [DecidableEq α] (l : List α) :
    ∀ acc : List α, acc.Nodup → (l.foldl setAdd acc).Nodup := by
  induction l with
  | nil => intro acc h; simpa
  | cons x t ih => intro acc h; exact ih (setAdd acc x) (setAdd_nodup acc x h)

theorem mem_foldl_setAdd {α : Type} [DecidableEq α] (l : List α) :
    ∀ (acc : List α) (y : α), y ∈ l.foldl setAdd acc ↔ y ∈ acc ∨ y ∈ l := by
  induction l with
  | nil => intro acc y; simp
  | cons x t ih =>
    intro acc y
    rw [List.foldl_cons, ih (setAdd acc x) y, mem_setAdd]
    simp only [List.mem_cons]
    tauto

theorem dedupList_nodup (l : List NodeRef) : (dedupList l).Nodup :=
  foldl_setAdd_nodup l [] List.nodup_nil

theorem mem_dedupList (l : List NodeRef) (y : NodeRef) :
    y ∈ dedupList l ↔ y ∈ l := by
  unfold dedupList
  rw [mem_foldl_setAdd]
  simp

/-- Claim C3 counterexample: for the empty element set (K = 0) every element
has vacuously reported, yet the resolver never signals completion: no element
is observed, the IntersectionObserver callback can never fire (the empty
burst list is the only possible environment), `done` stays false, and the
`while (!done)` loop of the generator stays suspended on a promise that is
never resolved. -/
theorem getBatchedRectMap_empty_never_done :
    (getBatchedRectMap [] []).2.done = false ∧ (getBatchedRectMap [] []).1 = [] := by
  decide

/-- Claim C3 (amended, restricted to a non-empty input set): for K ≥ 1
de-duplicated elements, when every element is eventually reported by some
notification burst (bursts only carry observed elements), the union of the
yielded batches contains each element at most once, and the final state has
`done = true`: the observer has disconnected and the generator loop
terminates. -/
theorem getBatchedRectMap_nodup_done (elements : List NodeRef)
    (bursts : List (List ObserverEntry))
    (hne : elements ≠ [])
    (hval : ∀ b ∈ bursts, ∀ e ∈ b, e.target ∈ elements)
    (hcov : ∀ x ∈ elements, ∃ b ∈ bursts, ∃ e ∈ b, e.target = x) :
    ((getBatchedRectMap elements bursts).1.flatten.map ObserverEntry.target).Nodup ∧
    (getBatchedRectMap elements bursts).2.done = true := by
  constructor
  · have h1 := runResolver_seen bursts
      ⟨dedupList elements, [], false, false⟩
    have h2 := runResolver_seen_nodup bursts
      ⟨dedupList elements, [], false, false⟩ List.nodup_nil
    rw [h1] at h2
    simpa [getBatchedRectMap] using h2
  · refine runResolver_terminates bursts ⟨dedupList elements, [], false, false⟩
      rfl (dedupList_nodup elements) List.nodup_nil ?_ ?_ ?_ ?_
    · intro x hx
      cases hx
    · intro b hb e he
      show e.target ∈ dedupList elements
      rw [mem_dedupList]
      exact hval b hb e he
    · intro x hx
      right
      exact hcov x ((mem_dedupList elements x).mp hx)
    · obtain ⟨y, t, rfl⟩ : ∃ y t, elements = y :: t := by
        cases elements with
        | nil => exact absurd rfl hne
        | cons y t => exact ⟨y, t, rfl⟩
      exact ⟨y, (mem_dedupList (y :: t) y).mpr (List.mem_cons_self y t),
        fun h => (List.mem_nil_iff y).mp h⟩

/-- Witness for `getBatchedRectMap_nodup_done`: two elements reported across
two separate bursts. -/
theorem getBatchedRectMap_nodup_done_witness :
    (([(⟨1, true⟩ : NodeRef), ⟨2, true⟩] : List NodeRef) ≠ []) ∧
    (∀ b ∈ [[(⟨⟨1, true⟩, true, ⟨0, 0, 5, 5⟩⟩ : ObserverEntry)],
        [(⟨⟨2, true⟩, true, ⟨0, 0, 5, 5⟩⟩ : ObserverEntry)]],
      ∀ e ∈ b, e.target ∈ ([(⟨1, true⟩ : NodeRef), ⟨2, true⟩] : List NodeRef)) ∧
    (∀ x ∈ ([(⟨1, true⟩ : NodeRef), ⟨2, true⟩] : List NodeRef),
      ∃ b ∈ [[(⟨⟨1, true⟩, true, ⟨0, 0, 5, 5⟩⟩ : ObserverEntry)],
        [(⟨⟨2, true⟩, true, ⟨0, 0, 5, 5⟩⟩ : ObserverEntry)]],
        ∃ e ∈ b, e.target = x) ∧
    ((getBatchedRectMap [⟨1, true⟩, ⟨2, true⟩]
        [[⟨⟨1, true⟩, true, ⟨0, 0, 5, 5⟩⟩], [⟨⟨2, true⟩, true, ⟨0, 0, 5, 5⟩⟩]]).1.flatten.map
      ObserverEntry.target).Nodup ∧
    (getBatchedRectMap [⟨1, true⟩, ⟨2, true⟩]
        [[⟨⟨1, true⟩, true, ⟨0, 0, 5, 5⟩⟩], [⟨⟨2, true⟩, true, ⟨0, 0, 5, 5⟩⟩]]).2.done = true := by
  refine ⟨by decide, by decide, by decide, ?_⟩
  exact getBatchedRectMap_nodup_done [⟨1, true⟩, ⟨2, true⟩]
    [[⟨⟨1, true⟩, true, ⟨0, 0, 5, 5⟩⟩], [⟨⟨2, true⟩, true, ⟨0, 0, 5, 5⟩⟩]]
    (by decide) (by decide) (by decide)

/-- Claim C7: when the IntersectionObserver callback runs while a consumer
is waiting (`resolveNext` armed, which the generator guarantees between
yields) and the newly seen partition of the burst is non-empty, exactly that
partition is handed to the consumer, the `resolveNext` slot is cleared, and
no further burst can deliver anything until the consumer re-arms the slot —
so at most one batch is ever outstanding and no newly seen entry of such a
burst is lost. -/
theorem observerCallback_backpressure (s : ResolverState) (b : List ObserverEntry)
    (hw : s.waiting = true) (hne : (partitionNew s.seenElements b).1 ≠ []) :
    (observerCallback s b).2 = some (partitionNew s.seenElements b).1 ∧
    (observerCallback s b).1.waiting = false ∧
    (∀ b2, (observerCallback (observerCallback s b).1 b2).2 = none) := by
  obtain ⟨h1, h2⟩ := observerCallback_delivered_some s b hw hne
  exact ⟨h1, h2, fun b2 => observerCallback_not_waiting _ b2 h2⟩

/-- Witness for `observerCallback_backpressure`: one waiting consumer, one
burst with one fresh entry, and a concrete second burst delivering nothing
before the consumer re-arms. -/
theorem observerCallback_backpressure_witness :
    ((⟨[⟨1, true⟩], [], true, false⟩ : ResolverState).waiting = true) ∧
    ((partitionNew (⟨[⟨1, true⟩], [], true, false⟩ : ResolverState).seenElements
        [(⟨⟨1, true⟩, true, ⟨0, 0, 5, 5⟩⟩ : ObserverEntry)]).1 ≠ []) ∧
    ((observerCallback ⟨[⟨1, true⟩], [], true, false⟩
        [⟨⟨1, true⟩, true, ⟨0, 0, 5, 5⟩⟩]).2 =
      some (partitionNew
        (⟨[⟨1, true⟩], [], true, false⟩ : ResolverState).seenElements
        [⟨⟨1, true⟩, true, ⟨0, 0, 5, 5⟩⟩]).1) ∧
    ((observerCallback ⟨[⟨1, true⟩], [], true, false⟩
        [⟨⟨1, true⟩, true, ⟨0, 0, 5, 5⟩⟩]).1.waiting = false) ∧
    ((observerCallback (observerCallback ⟨[⟨1, true⟩], [], true, false⟩
        [⟨⟨1, true⟩, true, ⟨0, 0, 5, 5⟩⟩]).1
        [(⟨⟨2, true⟩, true, ⟨0, 0, 5, 5⟩⟩ : ObserverEntry)]).2 = none) := by
  have h := observerCallback_backpressure ⟨[⟨1, true⟩], [], true, false⟩
    [⟨⟨1, true⟩, true, ⟨0, 0, 5, 5⟩⟩] (by decide) (by decide)
  exact ⟨by decide, by decide, h.1, h.2.1, h.2.2 [⟨⟨2, true⟩, true, ⟨0, 0, 5, 5⟩⟩]⟩

theorem mapGet_eq_none {α β : Type} [DecidableEq α] (m : List (α × β)) (k : α)
    (h : k ∉ m.map Prod.fst) : mapGet m k = none := by
  induction m with
  | nil => rfl
  | cons p t ih =>
    obtain ⟨k2, v2⟩ := p
    simp only [List.map_cons, List.mem_cons] at h
    push_neg at h
    have hne : k2 ≠ k := fun hk => h.1 hk.symm
    simp only [mapGet, if_neg hne]
    exact ih h.2

theorem mapDelete_subset {α β : Type} [DecidableEq α] (m : List (α × β)) (k : α) :
    ∀ p ∈ mapDelete m k, p ∈ m := by
  induction m with
  | nil => intro p hp; cases hp
  | cons q t ih =>
    obtain ⟨b, w⟩ := q
    intro p hp
    by_cases hb : b = k
    · simp only [mapDelete, if_pos hb] at hp
      exact List.mem_cons_of_mem _ hp
    · simp only [mapDelete, if_neg hb] at hp
      rcases List.mem_cons.mp hp with h2 | h2
      · exact h2 ▸ List.mem_cons_self _ _
      · exact List.mem_cons_of_mem _ (ih p h2)

theorem mapGet_mapDelete_self {α β : Type} [DecidableEq α] (m : List (α × β))
    (k : α) (h : (m.map Prod.fst).Nodup) : mapGet (mapDelete m k) k = none := by
  induction m with
  | nil => rfl
  | cons p t ih =>
    obtain ⟨k2, v2⟩ := p
    simp only [List.map_cons, List.nodup_cons] at h
    by_cases hk : k2 = k
    · subst hk
      simp only [mapDelete, if_pos rfl]
      exact mapGet_eq_none t k2 h.1
    · simp only [mapDelete, if_neg hk, mapGet, if_neg hk]
      exact ih h.2

theorem mapGet_mapDelete_none {α β : Type} [DecidableEq α] (m : List (α × β))
    (k k2 : α) (h : mapGet m k = none) : mapGet (mapDelete m k2) k = none := by
  induction m with
  | nil => rfl
  | cons p t ih =>
    obtain ⟨a, v⟩ := p
    by_cases ha : a = k
    · simp [mapGet, ha] at h
    · simp only [mapGet, if_neg ha] at h
      by_cases ha2 : a = k2
      · simpa only [mapDelete, if_pos ha2] using h
      · simp only [mapDelete, if_neg ha2, mapGet, if_neg ha]
        exact ih h

theorem mapDelete_keys_nodup {α β : Type} [DecidableEq α] (m : List (α × β))
    (k : α) (h : (m.map Prod.fst).Nodup) :
    ((mapDelete m k).map Prod.fst).Nodup := by
  induction m with
  | nil => exact h
  | cons p t ih =>
    obtain ⟨a, v⟩ := p
    simp only [List.map_cons, List.nodup_cons] at h
    by_cases ha : a = k
    · simpa only [mapDelete, if_pos ha] using h.2
    · simp only [mapDelete, if_neg ha, List.map_cons, List.nodup_cons]
      refine ⟨fun hmem => ?_, ih h.2⟩
      obtain ⟨p2, hp2, hfst⟩ := List.mem_map.mp hmem
      have hsub : p2 ∈ t := mapDelete_subset t k p2 hp2
      exact h.1 (hfst ▸ List.mem_map_of_mem Prod.fst hsub)

theorem foldl_mapDelete_preserves_none {α β : Type} [DecidableEq α]
    (ks : List α) (m : List (α × β)) (k : α) (h : mapGet m k = none) :
    mapGet (ks.foldl (fun m2 k2 => mapDelete m2 k2) m) k = none := by
  induction ks generalizing m with
  | nil => exact h
  | cons k0 t ih =>
    rw [List.foldl_cons]
    exact ih (mapDelete m k0) (mapGet_mapDelete_none m k k0 h)

theorem foldl_mapDelete_none {α β : Type} [DecidableEq α] (ks : List α)
    (m : List (α × β)) (k : α) (hnd : (m.map Prod.fst).Nodup) (hk : k ∈ ks) :
    mapGet (ks.foldl (fun m2 k2 => mapDelete m2 k2) m) k = none := by
  induction ks generalizing m with
  | nil => cases hk
  | cons k0 t ih =>
    rw [List.foldl_cons]
    rcases List.mem_cons.mp hk with rfl | h
    · exact foldl_mapDelete_preserves_none t (mapDelete m k) k
        (mapGet_mapDelete_self m k hnd)
    · exact ih (mapDelete m k0) (mapDelete_keys_nodup m k0 hnd) h

/-- Claim C6: whenever the flush resolution sequence completes (the resolver
signalled `done`, so the clearing loop at the end of `flushOutlines` runs),
the key set ends empty and every identity that was recorded for the cycle is
gone from the blueprint map, whether or not it ever acquired a rectangle.
The Nodup hypothesis is the JavaScript Map invariant of unique keys. -/
theorem flushOutlines_clears_blueprints (s : AggState)
    (bursts : List (List ObserverEntry))
    (hnd : (s.blueprintMap.map Prod.fst).Nodup)
    (hdone : (flushOutlines s bursts).2.isSome) :
    ∃ s2, (flushOutlines s bursts).2 = some s2 ∧
      s2.blueprintMapKeys = [] ∧
      ∀ k ∈ s.blueprintMapKeys, mapGet s2.blueprintMap k = none := by
  by_cases hd : (getBatchedRectMap (collectElements s) bursts).2.done = true
  · refine ⟨clearBlueprints s, ?_, rfl, ?_⟩
    · simp [flushOutlines, hd]
    · intro k hk
      exact foldl_mapDelete_none s.blueprintMapKeys s.blueprintMap k hnd hk
  · exfalso
    simp [flushOutlines, hd] at hdone

/-- Witness for `flushOutlines_clears_blueprints`: one blueprint whose
element resolves in one burst; the cycle completes and the blueprint is
cleared. -/
theorem flushOutlines_clears_blueprints_witness :
    ((([(7, (⟨"A", 1, [⟨1, true⟩], 0⟩ : BlueprintOutline))] :
        List (ℕ × BlueprintOutline)).map Prod.fst).Nodup) ∧
    ((flushOutlines ⟨[(7, ⟨"A", 1, [⟨1, true⟩], 0⟩)], [7]⟩
        [[⟨⟨1, true⟩, true, ⟨0, 0, 5, 5⟩⟩]]).2.isSome) ∧
    (∃ s2, (flushOutlines ⟨[(7, ⟨"A", 1, [⟨1, true⟩], 0⟩)], [7]⟩
        [[⟨⟨1, true⟩, true, ⟨0, 0, 5, 5⟩⟩]]).2 = some s2 ∧
      s2.blueprintMapKeys = [] ∧
      ∀ k ∈ ((⟨[(7, ⟨"A", 1, [⟨1, true⟩], 0⟩)], [7]⟩ : AggState)).blueprintMapKeys,
        mapGet s2.blueprintMap k = none) :=
  ⟨by decide, by decide,
   flushOutlines_clears_blueprints ⟨[(7, ⟨"A", 1, [⟨1, true⟩], 0⟩)], [7]⟩
     [[⟨⟨1, true⟩, true, ⟨0, 0, 5, 5⟩⟩]] (by decide) (by decide)⟩

/-- Claim C8 counterexample: with zero recorded blueprints no element is
observed, so the IntersectionObserver callback can never fire, `done` stays
false forever and the flush never terminates: the run ends with no render
call made and no final state — the clearing loop is never reached and the
async call stays suspended, contradicting the claim that the call
terminates. -/
theorem flushOutlines_empty_pending :
    flushOutlines ⟨[], []⟩ [] = ([], none) := by
  decide

/-- Claim C8 (amended): calling flush with zero recorded blueprints makes no
`renderOutlines` call and performs no state mutation, but it does not
terminate: for every possible environment (a burst is a non-empty callback
invocation for observed elements only, and nothing is observed), the flush
produces no renders and never reaches its clearing loop (`none` final
state). -/
theorem flushOutlines_empty_noop (bursts : List (List ObserverEntry))
    (hval : ∀ b ∈ bursts, b ≠ [] ∧ ∀ e ∈ b, e.target ∈ collectElements ⟨[], []⟩) :
    flushOutlines ⟨[], []⟩ bursts = ([], none) := by
  have hb : bursts = [] := by
    cases bursts with
    | nil => rfl
    | cons b bs =>
      obtain ⟨hbne, hmem⟩ := hval b (List.mem_cons_self b bs)
      exfalso
      cases b with
      | nil => exact hbne rfl
      | cons e t =>
        have : e.target ∈ collectElements ⟨[], []⟩ := hmem e (List.mem_cons_self e t)
        cases this
  subst hb
  decide

/-- Witness for `flushOutlines_empty_noop` at the only possible environment,
the empty burst list. -/
theorem flushOutlines_empty_noop_witness :
    (∀ b ∈ ([] : List (List ObserverEntry)),
      b ≠ [] ∧ ∀ e ∈ b, e.target ∈ collectElements ⟨[], []⟩) ∧
    flushOutlines ⟨[], []⟩ [] = ([], none) :=
  ⟨by decide, flushOutlines_empty_noop [] (by decide)⟩

/-- Claim C9 is violated by the canvas backend: `CanvasOutlineRenderer.dispose`
has an empty body, so it releases nothing, and a `renderOutlines` call after
`dispose` still merges the record into the animation state and schedules an
animation frame — an observable drawing side effect after disposal.  (The
worker backend does terminate its worker, and a second `dispose` there is a
non-crashing no-op, as the last conjunct records.) -/
theorem canvasRenderer_draws_after_dispose :
    CanvasOutlineRenderer.dispose ⟨[], none⟩ =
      (⟨[], none⟩ : CanvasOutlineRenderer.State) ∧
    (CanvasOutlineRenderer.renderOutlines (CanvasOutlineRenderer.dispose ⟨[], none⟩)
        [⟨1, "name", 3, 1, 2, 3, 4, 1⟩]).animationFrameId = some 1 ∧
    (CanvasOutlineRenderer.renderOutlines (CanvasOutlineRenderer.dispose ⟨[], none⟩)
        [⟨1, "name", 3, 1, 2, 3, 4, 1⟩]).activeOutlines ≠ [] ∧
    WorkerOutlineRenderer.dispose (WorkerOutlineRenderer.dispose ⟨false⟩) = ⟨true⟩ := by
  decide

/-- Claim C10 is violated: two scroll events inside one debounce window
(scroll position 0, then 10, then 25) deliver exactly one scroll call whose
deltas are the ones captured when the timeout was scheduled, (10, 0),
although the net scroll over the window is 25.  The second delta (15, 0) is
dropped permanently: the listener already advanced `prevScrollX`, so no later
window re-delivers it. -/
theorem scrollForward_drops_net_delta :
    runScroll ⟨0, 0, false, 0, 0⟩
      [ScrollEvent.scrollTo 10 0, ScrollEvent.scrollTo 25 0,
        ScrollEvent.timeoutFire] = [(10, 0)] ∧
    (25 : ℤ) - 0 ≠ 10 := by
  decide

end ReactScan
